import Mathlib

/-!
Shallow embedding of `dhCodex.hpp` (dh::codex), the process-wide registry
mapping UUID strings to owned `Thing` objects.

The C++ global `std::map<const std::string, std::unique_ptr<Thing>>` is
modelled as an association list with the exact semantics of the map
operations the source uses: `find` (first match), `operator[]` assignment
(replace the value under an existing key, otherwise insert), `erase(key)`
(drop every element under that key; at most one on any state reachable
through `std::map`), and `size`.  Each registry operation takes the mapping
as an explicit argument and returns its result together with the mapping
after the call.  The mutex acquired by the gated flavours has no observable
effect in this sequential embedding; a gated operation is therefore the
composition its body performs, namely a call to its ungated counterpart.

`dynamic_cast<T*>` over the open class hierarchy rooted at `Thing` is
modelled over a closed kind lattice with the two subkinds the specification
uses as its running example (`parent`, `child`), each derived directly from
`Thing`: the cast succeeds exactly when the runtime kind of the object is
assignable to the requested kind.
-/

/-- Runtime kind of a registered object: the base `Thing` class or one of
the example subclasses (`Parent`, `Child`, both deriving from `Thing`). -/
inductive Kind
  | thing
  | parent
  | child
deriving DecidableEq

/-- `assignable r k` holds when a pointer to an object whose runtime kind is
`r` may be narrowed to kind `k` by `dynamic_cast`: every kind narrows to the
base `thing` kind, and otherwise only to itself. -/
def assignable : Kind → Kind → Bool
  | _, Kind.thing => true
  | Kind.parent, Kind.parent => true
  | Kind.child, Kind.child => true
  | _, _ => false

/-- The base entity of the registry (`class Thing`).  `_uuid` is the
immutable identifier bound at construction; `kind` is the runtime kind tag
consulted by `dynamic_cast`; `reprStr` is the string the virtual
`get_repr()` returns for this object (subclasses override it, so it is
carried as data). -/
structure Thing where
  _uuid : String
  kind : Kind
  reprStr : String
deriving DecidableEq

/-- `Thing::get_uuid()`: returns the immutable identifier. -/
def Thing.get_uuid (t : Thing) : String := t._uuid

/-- `Thing::get_repr()` (virtual): the printable representation. -/
def Thing.get_repr (t : Thing) : String := t.reprStr

/-- The state of the global codex: `std::map<const std::string,
std::unique_ptr<Thing>>`, as an association list from UUID to Thing. -/
abbrev Mapping := List (String × Thing)

/-- The keys currently present in the mapping. -/
def keys (m : Mapping) : List String := m.map Prod.fst

/-- `mapping->find(uuid)`: the value stored under the first matching key,
if any. -/
def mapFind : Mapping → String → Option Thing
  | [], _ => none
  | (k, v) :: rest, u => if k = u then some v else mapFind rest u

/-- `(*mapping)[uuid] = std::move(ptr)`: replace the value under an
existing key, otherwise insert the pair.  (The position of a fresh key in
the list stands for its position in the ordered map; no claim depends on
iteration order.) -/
def mapInsert : Mapping → String → Thing → Mapping
  | [], u, t => [(u, t)]
  | (k, v) :: rest, u, t =>
      if k = u then (u, t) :: rest else (k, v) :: mapInsert rest u t

/-- `mapping->erase(uuid)`: drop every element stored under the key (on any
state reachable through `std::map` there is at most one). -/
def mapErase (m : Mapping) (u : String) : Mapping :=
  m.filter (fun p => p.1 != u)

/-- `dynamic_cast<K*>(t)`: the object itself when its runtime kind is
assignable to `K`, null otherwise. -/
def dynCast (K : Kind) (t : Thing) : Option Thing :=
  if assignable t.kind K then some t else none

/-- `_find_one_by_uuid__unsafe<T>(uuid)`: look the UUID up in the mapping
and `dynamic_cast` the stored pointer to the requested kind; null if the
UUID is absent. -/
def _find_one_by_uuid__unsafe (K : Kind) (m : Mapping) (uuid : String) : Option Thing :=
  match mapFind m uuid with
  | some t => dynCast K t
  | none => none

/-- `_find_one_by_uuid<T>(uuid)`: the gated flavour; locks the mutex and
calls the ungated form. -/
def _find_one_by_uuid (K : Kind) (m : Mapping) (uuid : String) : Option Thing :=
  _find_one_by_uuid__unsafe K m uuid

/-- Return status of `remove` (`enum class Status`). -/
inductive Status
  | SUCCESS
  | FAILURE
deriving DecidableEq

/-- `add__unsafe<T>(ptr)`: store the object in the mapping under its own
UUID via `operator[]` assignment (silently replacing any previous entry
under that UUID) and return the raw pointer now stored there. -/
def add__unsafe (m : Mapping) (t : Thing) : Thing × Mapping :=
  (t, mapInsert m t.get_uuid t)

/-- `add<T>(ptr)`: the gated flavour; locks the mutex and calls
`add__unsafe`. -/
def add (m : Mapping) (t : Thing) : Thing × Mapping :=
  add__unsafe m t

/-- `get__unsafe<T>(uuid)`: call `_find_one_by_uuid__unsafe` at the default
argument `Thing` (whose `dynamic_cast<Thing*>` always succeeds on a stored
object) and, when non-null, `dynamic_cast` the result to the requested
kind. -/
def get__unsafe (K : Kind) (m : Mapping) (uuid : String) : Option Thing :=
  match _find_one_by_uuid__unsafe Kind.thing m uuid with
  | some r => dynCast K r
  | none => none

/-- `remove__unsafe(uuid)`: null-check via `get__unsafe<Thing>`; on a miss
return `FAILURE` leaving the mapping untouched, otherwise erase the entry
(which destroys the owned object, running `~Thing`) and return
`SUCCESS`. -/
def remove__unsafe (m : Mapping) (uuid : String) : Status × Mapping :=
  match get__unsafe Kind.thing m uuid with
  | none => (Status.FAILURE, m)
  | some _ => (Status.SUCCESS, mapErase m uuid)

/-- `remove(uuid)`: the gated flavour; locks the mutex and calls
`remove__unsafe`. -/
def remove (m : Mapping) (uuid : String) : Status × Mapping :=
  remove__unsafe m uuid

/-- `remove(Thing* ptr)`: reads `ptr->get_uuid()` with no null check and
delegates to `remove__unsafe` under the lock.  The dereference makes a
non-null handle an implicit precondition, carried here as the proof
obligation `p.isSome`. -/
def remove_ptr (p : Option Thing) (h : p.isSome) (m : Mapping) : Status × Mapping :=
  remove m (p.get h).get_uuid

/-- `size__unsafe()`: the number of entries in the mapping. -/
def size__unsafe (m : Mapping) : Nat := m.length

/-- `size()`: the gated flavour; locks the mutex and calls
`size__unsafe`. -/
def size (m : Mapping) : Nat := size__unsafe m

/-- The horizontal rule of `list_entries__unsafe`. -/
def ruleLine : String := "+---------------------------------------------"

/-- The header piece of `list_entries__unsafe` (local `prefix` variable in
the source). -/
def codexHeader : String := "\n| Codex:\n"

/-- The loop `for(int _=0; _<n; _++) indent += " ";`: append `n` spaces. -/
def appendSpaces : List Char → Nat → List Char
  | s, 0 => s
  | s, n + 1 => appendSpaces (s ++ [' ']) n

/-- The per-entry continuation indent: the literal `"|       "` extended by
one space per character of the entry's key. -/
def indentFor (u : String) : List Char :=
  appendSpaces "|       ".data u.length

/-- The inner loop of `list_entries__unsafe`: copy the representation
character by character, appending the indent after every newline
character. -/
def reprOffset (indent : List Char) : List Char → List Char
  | [] => []
  | c :: rest =>
      if c = '\n' then c :: (indent ++ reprOffset indent rest)
      else c :: reprOffset indent rest

/-- One row of the listing: `"|    [" + key + "] " + repr_offset + "\n"`. -/
def rowOf (u : String) (t : Thing) : String :=
  "|    [" ++ u ++ "] " ++ String.mk (reprOffset (indentFor u) t.get_repr.data) ++ "\n"

/-- The `content` accumulated over the mapping's entries in iteration
order. -/
def contentOf : Mapping → String
  | [] => ""
  | (u, t) :: rest => rowOf u t ++ contentOf rest

/-- Result of a listing call: the returned string, what was sent to
standard output (empty when `print` is false; `std::endl` contributes the
final newline), and the mapping after the call. -/
structure ListResult where
  output : String
  echoed : String
  state : Mapping
deriving DecidableEq

/-- `list_entries__unsafe(print)`: build the table string from the current
entries, optionally send it to standard output, and return it.  The
function only reads the mapping. -/
def list_entries__unsafe (print : Bool) (m : Mapping) : ListResult :=
  { output := ruleLine ++ codexHeader ++ contentOf m ++ ruleLine ++ "\n"
  , echoed := if print then ruleLine ++ codexHeader ++ contentOf m ++ ruleLine ++ "\n" else ""
  , state := m }

/-- `list_entries(print)`: the gated flavour; locks the mutex and calls
`list_entries__unsafe`. -/
def list_entries (print : Bool) (m : Mapping) : ListResult :=
  list_entries__unsafe print m

/-- Outcome of the Win32 RPC facility backing `_new_uuid`: the status
returned by `UuidCreate`, the status returned by `UuidToStringA`, and the
canonical string the latter renders on success. -/
structure RpcEnv where
  createStatus : Int
  toStringStatus : Int
  rendered : String
deriving DecidableEq

/-- `_new_uuid()` (the Win32 branch, the only fallible variant): when
`UuidCreate` or `UuidToStringA` reports a non-zero status the function
prints a diagnostic and returns the empty string; otherwise it returns the
canonical string the facility rendered. -/
def _new_uuid (env : RpcEnv) : String :=
  if env.createStatus ≠ 0 then ""
  else if env.toStringStatus ≠ 0 then ""
  else env.rendered

/-- `Thing::Thing()`: binds `_uuid` to whatever `_new_uuid()` returned —
including the empty string on platform failure.  Construction is total: no
error is surfaced to the caller.  (`k` and `r` stand for the runtime kind
and virtual representation of the object under construction.) -/
def Thing.construct (env : RpcEnv) (k : Kind) (r : String) : Thing :=
  { _uuid := _new_uuid env, kind := k, reprStr := r }

/-- `remove__unsafe` with the destruction hook's view of the mapping made
explicit.  The source erases with `_get_mapping()->erase(uuid)`; the
ordered map's erase-by-key unlinks the node and then destroys the element,
so `~Thing` — the destruction hook — runs against the mapping with the
entry already gone.  The middle component is the mapping the hook observes
(`none` when no hook ran); the last is the final mapping. -/
def remove__unsafe_hookView (m : Mapping) (uuid : String) : Status × Option Mapping × Mapping :=
  match get__unsafe Kind.thing m uuid with
  | none => (Status.FAILURE, none, m)
  | some _ => (Status.SUCCESS, some (mapErase m uuid), mapErase m uuid)

/-- A client operation against the codex: hand a freshly constructed Thing
to `add__unsafe`, or call `remove__unsafe` on an identifier. -/
inductive Op
  | ins (t : Thing)
  | rem (u : String)

/-- Run a sequence of operations against a mapping. -/
def run : Mapping → List Op → Mapping
  | m, [] => m
  | m, Op.ins t :: ops => run ( add__unsafe m t).2 ops
  | m, Op.rem u :: ops => run ( remove__unsafe m u).2 ops

/-- The identifiers of the Things handed to `add__unsafe` in a sequence. -/
def insUuids : List Op → List String
  | [] => []
  | Op.ins t :: ops => t.get_uuid :: insUuids ops
  | Op.rem _ :: ops => insUuids ops

/-- The number of insertions in a sequence. -/
def countInserts : List Op → Nat
  | [] => 0
  | Op.ins _ :: ops => countInserts ops + 1
  | Op.rem _ :: ops => countInserts ops

/-- The number of removals in a sequence that return `SUCCESS`, starting
from the given mapping. -/
def succRemoves : Mapping → List Op → Nat
  | _, [] => 0
  | m, Op.ins t :: ops => succRemoves ( add__unsafe m t).2 ops
  | m, Op.rem u :: ops =>
      (if ( remove__unsafe m u).1 = Status.SUCCESS then 1 else 0) +
        succRemoves ( remove__unsafe m u).2 ops

/-- Concrete Thing used by witnesses and counterexamples. -/
def tA : Thing := { _uuid := "u", kind := Kind.thing, reprStr := "A" }

/-- A second Thing constructed under the same identifier as `tA`. -/
def tB : Thing := { _uuid := "u", kind := Kind.thing, reprStr := "B" }

/-- A Thing whose runtime kind is the `parent` subkind. -/
def tP : Thing := { _uuid := "p", kind := Kind.parent, reprStr := "P" }

/-- An RPC outcome on which `UuidCreate` reports failure. -/
def badEnv : RpcEnv := { createStatus := 1, toStringStatus := 0, rendered := "ok" }

/-- An RPC outcome on which the facility succeeds with a canonical string. -/
def goodEnv : RpcEnv :=
  { createStatus := 0, toStringStatus := 0
  , rendered := "1b4e28ba-2fa1-11d2-883f-0016d3cca427" }

theorem assignable_thing (k : Kind) : assignable k Kind.thing = true := by
  cases k <;> rfl

theorem keys_nil : keys [] = [] := rfl

theorem keys_cons (k : String) (v : Thing) (rest : List (String × Thing)) :
    keys ((k, v) :: rest) = k :: keys rest := rfl

theorem mapErase_cons_self (k : String) (v : Thing) (rest : List (String × Thing)) :
    mapErase ((k, v) :: rest) k = mapErase rest k := by
  simp [mapErase, List.filter_cons]

theorem mapErase_cons_ne (k u : String) (v : Thing) (rest : List (String × Thing))
    (h : ¬ k = u) : mapErase ((k, v) :: rest) u = (k, v) :: mapErase rest u := by
  simp [mapErase, List.filter_cons, h]

theorem mapFind_eq_none_iff (m : Mapping) (u : String) :
    mapFind m u = none ↔ u ∉ keys m := by
  induction m with
  | nil => simp [mapFind, keys]
  | cons p rest ih =>
    obtain ⟨k, v⟩ := p
    rw [keys_cons]
    by_cases hk : k = u
    · simp [mapFind, hk]
    · have hku : ¬ u = k := fun he => hk he.symm
      simp [mapFind, hk, hku, ih]

theorem mem_keys_of_find (m : Mapping) (u : String) (t : Thing)
    (h : mapFind m u = some t) : u ∈ keys m := by
  by_contra hc
  rw [(mapFind_eq_none_iff m u).mpr hc] at h
  cases h

theorem mapInsert_fresh (m : Mapping) (u : String) (t : Thing)
    (h : u ∉ keys m) : mapInsert m u t = m ++ [(u, t)] := by
  induction m with
  | nil => rfl
  | cons p rest ih =>
    obtain ⟨k, v⟩ := p
    rw [keys_cons] at h
    have hk : ¬ k = u := fun he => h (by simp [he])
    simp [mapInsert, hk]
    exact ih (fun hm => h (by simp [hm]))

theorem mapErase_fresh (m : Mapping) (u : String)
    (h : u ∉ keys m) : mapErase m u = m := by
  induction m with
  | nil => rfl
  | cons p rest ih =>
    obtain ⟨k, v⟩ := p
    rw [keys_cons] at h
    have hk : ¬ k = u := fun he => h (by simp [he])
    rw [mapErase_cons_ne k u v rest hk]
    rw [ih (fun hm => h (by simp [hm]))]

theorem mapFind_mapErase_self (m : Mapping) (u : String) :
    mapFind (mapErase m u) u = none := by
  induction m with
  | nil => rfl
  | cons p rest ih =>
    obtain ⟨k, v⟩ := p
    by_cases hk : k = u
    · subst hk
      rw [mapErase_cons_self]
      exact ih
    · rw [mapErase_cons_ne k u v rest hk]
      simp [mapFind, hk]
      exact ih

theorem mapFind_mapErase_ne (m : Mapping) (u v : String) (h : v ≠ u) :
    mapFind (mapErase m u) v = mapFind m v := by
  induction m with
  | nil => rfl
  | cons p rest ih =>
    obtain ⟨k, w⟩ := p
    by_cases hk : k = u
    · rw [hk, mapErase_cons_self]
      have huv : ¬ u = v := fun he => h he.symm
      simp [mapFind, huv]
      exact ih
    · rw [mapErase_cons_ne k u w rest hk]
      by_cases hkv : k = v
      · simp [mapFind, hkv]
      · simp [mapFind, hkv]
        exact ih

theorem length_mapErase_add_one (m : Mapping) (u : String) (t : Thing)
    (hn : (keys m).Nodup) (hf : mapFind m u = some t) :
    (mapErase m u).length + 1 = m.length := by
  induction m with
  | nil => cases hf
  | cons p rest ih =>
    obtain ⟨k, v⟩ := p
    rw [keys_cons] at hn
    obtain ⟨hk1, hk2⟩ := List.nodup_cons.mp hn
    by_cases hk : k = u
    · subst hk
      rw [mapErase_cons_self, mapErase_fresh rest k hk1]
      simp
    · simp only [mapFind, hk, if_false] at hf
      have := ih hk2 hf
      rw [mapErase_cons_ne k u v rest hk]
      simp only [List.length_cons]
      omega

theorem keys_mapErase_sublist (m : Mapping) (u : String) :
    List.Sublist (keys (mapErase m u)) (keys m) :=
  List.Sublist.map Prod.fst (List.filter_sublist m)

theorem get__unsafe_of_none (K : Kind) (m : Mapping) (u : String)
    (h : mapFind m u = none) : get__unsafe K m u = none := by
  simp [ get__unsafe, _find_one_by_uuid__unsafe, h]

theorem get__unsafe_of_some (K : Kind) (m : Mapping) (u : String) (t : Thing)
    (h : mapFind m u = some t) : get__unsafe K m u = dynCast K t := by
  simp [ get__unsafe, _find_one_by_uuid__unsafe, h, dynCast, assignable_thing]

theorem get__unsafe_thing (m : Mapping) (u : String) (t : Thing)
    (h : mapFind m u = some t) : get__unsafe Kind.thing m u = some t := by
  rw [get__unsafe_of_some Kind.thing m u t h]
  simp [dynCast, assignable_thing]

theorem remove__unsafe_of_none (m : Mapping) (u : String)
    (h : mapFind m u = none) : remove__unsafe m u = (Status.FAILURE, m) := by
  simp [ remove__unsafe, get__unsafe_of_none Kind.thing m u h]

theorem remove__unsafe_of_some (m : Mapping) (u : String) (t : Thing)
    (h : mapFind m u = some t) :
    remove__unsafe m u = (Status.SUCCESS, mapErase m u) := by
  simp [ remove__unsafe, get__unsafe_thing m u t h]

theorem insUuids_ins (t : Thing) (ops : List Op) :
    insUuids (Op.ins t :: ops) = t.get_uuid :: insUuids ops := rfl

theorem insUuids_rem (u : String) (ops : List Op) :
    insUuids (Op.rem u :: ops) = insUuids ops := rfl

theorem run_size_aux (ops : List Op) : ∀ m : Mapping,
    (keys m).Nodup → (insUuids ops).Nodup →
    (∀ u ∈ insUuids ops, u ∉ keys m) →
    size__unsafe (run m ops) + succRemoves m ops =
      size__unsafe m + countInserts ops := by
  induction ops with
  | nil =>
    intro m _ _ _
    simp [run, succRemoves, countInserts]
  | cons op ops ih =>
    intro m hk hi hd
    cases op with
    | ins t =>
      rw [insUuids_ins] at hi hd
      obtain ⟨hnotin, hi'⟩ := List.nodup_cons.mp hi
      have hfresh : t.get_uuid ∉ keys m :=
        hd t.get_uuid (List.mem_cons_self _ _)
      have hins : ( add__unsafe m t).2 = m ++ [(t.get_uuid, t)] := by
        simpa [ add__unsafe] using mapInsert_fresh m t.get_uuid t hfresh
      have hkeys : keys (m ++ [(t.get_uuid, t)]) = keys m ++ [t.get_uuid] := by
        simp [keys]
      have hk' : (keys (m ++ [(t.get_uuid, t)])).Nodup := by
        rw [hkeys, List.nodup_append]
        refine ⟨hk, List.nodup_singleton _, ?_⟩
        intro x hx hx'
        rw [List.mem_singleton] at hx'
        exact hfresh (hx' ▸ hx)
      have hd' : ∀ u ∈ insUuids ops, u ∉ keys (m ++ [(t.get_uuid, t)]) := by
        intro u hu
        rw [hkeys, List.mem_append, List.mem_singleton]
        rintro (hc | hc)
        · exact hd u (List.mem_cons_of_mem _ hu) hc
        · exact hnotin (hc ▸ hu)
      have ihm := ih (m ++ [(t.get_uuid, t)]) hk' hi' hd'
      show size__unsafe (run ( add__unsafe m t).2 ops) +
          succRemoves ( add__unsafe m t).2 ops =
        size__unsafe m + (countInserts ops + 1)
      rw [hins]
      have hlen : size__unsafe (m ++ [(t.get_uuid, t)]) = size__unsafe m + 1 := by
        simp [ size__unsafe]
      omega
    | rem u =>
      rw [insUuids_rem] at hi hd
      cases hf : mapFind m u with
      | none =>
        have hr := remove__unsafe_of_none m u hf
        have ihm := ih m hk hi hd
        show size__unsafe (run ( remove__unsafe m u).2 ops) +
            ((if ( remove__unsafe m u).1 = Status.SUCCESS then 1 else 0) +
              succRemoves ( remove__unsafe m u).2 ops) =
          size__unsafe m + countInserts ops
        rw [hr]
        show size__unsafe (run m ops) +
            ((if Status.FAILURE = Status.SUCCESS then 1 else 0) + succRemoves m ops) =
          size__unsafe m + countInserts ops
        rw [if_neg (by decide)]
        omega
      | some t =>
        have hr := remove__unsafe_of_some m u t hf
        have hk' : (keys (mapErase m u)).Nodup :=
          List.Nodup.sublist (keys_mapErase_sublist m u) hk
        have hd' : ∀ v ∈ insUuids ops, v ∉ keys (mapErase m u) := by
          intro v hv hc
          exact hd v hv (List.Sublist.subset (keys_mapErase_sublist m u) hc)
        have ihm := ih (mapErase m u) hk' hi hd'
        have hlen := length_mapErase_add_one m u t hk hf
        show size__unsafe (run ( remove__unsafe m u).2 ops) +
            ((if ( remove__unsafe m u).1 = Status.SUCCESS then 1 else 0) +
              succRemoves ( remove__unsafe m u).2 ops) =
          size__unsafe m + countInserts ops
        rw [hr]
        show size__unsafe (run (mapErase m u) ops) +
            ((if Status.SUCCESS = Status.SUCCESS then 1 else 0) +
              succRemoves (mapErase m u) ops) =
          size__unsafe m + countInserts ops
        rw [if_pos rfl]
        have hlen2 : size__unsafe (mapErase m u) + 1 = size__unsafe m := hlen
        omega

theorem appendSpaces_eq (n : Nat) : ∀ s : List Char,
    appendSpaces s n = s ++ List.replicate n ' ' := by
  induction n with
  | zero => intro s; simp [appendSpaces]
  | succ n ih =>
    intro s
    rw [show appendSpaces s (n + 1) = appendSpaces (s ++ [' ']) n from rfl, ih]
    simp [List.replicate_succ]

theorem reprOffset_append (ind a b : List Char) :
    reprOffset ind (a ++ b) = reprOffset ind a ++ reprOffset ind b := by
  induction a with
  | nil => simp [reprOffset]
  | cons c rest ih =>
    by_cases hc : c = '\n' <;> simp [reprOffset, hc, ih]

/-- Claim C1, evaluated on the code at a collision: with `tA` already stored
under identifier "u", inserting `tB` (a different Thing whose identifier is
also "u") does not fail — `add__unsafe` silently replaces the stored entry
with `tB`, dropping the prior owner, and returns `tB`.  No `collision`
error exists in the source (the return type has no error channel), so the
claimed deterministic failure with the prior entry left unchanged does not
hold of the code. -/
theorem c1_insert_overwrites_on_collision :
    add__unsafe [("u", tA)] tB = (tB, [("u", tB)]) ∧
      mapFind ( add__unsafe [("u", tA)] tB).2 "u" = some tB ∧ tA ≠ tB := by
  decide

/-- Claim C2: kind-checked resolution.  For a stored Thing `t`,
`get__unsafe K` on `t`'s identifier returns a handle exactly when `t`'s
runtime kind is assignable to the requested kind `K` (and that handle is
`t` itself); on a missing identifier it returns absent; and requesting the
base `Thing` kind always matches. -/
theorem c2_resolve_kind_checked (m : Mapping) (u : String) (K : Kind) :
    (∀ t, mapFind m u = some t →
        get__unsafe K m u = if assignable t.kind K then some t else none) ∧
      (mapFind m u = none → get__unsafe K m u = none) ∧
      (∀ t, mapFind m u = some t → get__unsafe Kind.thing m u = some t) := by
  refine ⟨fun t ht => ?_, fun h => get__unsafe_of_none K m u h,
    fun t ht => get__unsafe_thing m u t ht⟩
  rw [get__unsafe_of_some K m u t ht]
  rfl

/-- Claim C2 witness: with the `parent`-kinded `tP` stored under "p",
resolving at kind `child` is absent while resolving at the base kind
returns `tP`. -/
theorem c2_witness :
    get__unsafe Kind.child [("p", tP)] "p" = none ∧
      get__unsafe Kind.thing [("p", tP)] "p" = some tP := by
  have h := c2_resolve_kind_checked [("p", tP)] "p" Kind.child
  refine ⟨?_, h.2.2 tP (by decide)⟩
  rw [h.1 tP (by decide)]
  decide

/-- Claim C3, refuted at a concrete input: removing "u" from the one-entry
codex `[("u", tA)]` runs the destruction hook with the entry for "u"
already unlinked from the mapping — the hook's view is the empty mapping,
on which "u" resolves to absent.  The claim that the entry for `u` still
exists while the hook runs is false of the code. -/
theorem c3_counterexample :
    remove__unsafe_hookView [("u", tA)] "u" = (Status.SUCCESS, some [], []) ∧
      mapFind [] "u" = none ∧ get__unsafe Kind.thing [] "u" = none := by
  decide

/-- Claim C3 as amended: for every identifier `u` present in the codex,
`remove` runs the destruction hook exactly once, as part of erasing the
entry; the hook observes the mapping with the entry for `u` already gone
(`u` resolves to absent from inside the hook), while every other
identifier resolves from inside the hook exactly as before the removal. -/
theorem c3_hook_after_unlink (m : Mapping) (u : String) (t : Thing)
    (h : mapFind m u = some t) :
    remove__unsafe_hookView m u =
        (Status.SUCCESS, some (mapErase m u), mapErase m u) ∧
      mapFind (mapErase m u) u = none ∧
      (∀ v, v ≠ u → mapFind (mapErase m u) v = mapFind m v) := by
  refine ⟨?_, mapFind_mapErase_self m u, fun v hv => mapFind_mapErase_ne m u v hv⟩
  simp [remove__unsafe_hookView, get__unsafe_thing m u t h]

/-- Claim C3 witness: the amended statement applied at the one-entry
codex. -/
theorem c3_witness :
    remove__unsafe_hookView [("u", tA)] "u" =
        (Status.SUCCESS, some (mapErase [("u", tA)] "u"), mapErase [("u", tA)] "u") ∧
      mapFind (mapErase [("u", tA)] "u") "u" = none := by
  have h := c3_hook_after_unlink [("u", tA)] "u" tA (by decide)
  exact ⟨h.1, h.2.1⟩

/-- Claim C4: the gated operations that name an existing ungated sibling —
`remove`, `add`, `size`, `list_entries`, `_find_one_by_uuid` — produce the
same result and final state as that sibling.  (The remaining gated
operation, `get<T>`, references the undeclared name `get_unsafe<T>` and
does not compile; the broken delegation is recorded with the claim.) -/
theorem c4_gated_ops_delegate (m : Mapping) (u : String) (t : Thing)
    (b : Bool) (K : Kind) :
    remove m u = remove__unsafe m u ∧ add m t = add__unsafe m t ∧
      size m = size__unsafe m ∧ list_entries b m = list_entries__unsafe b m ∧
      _find_one_by_uuid K m u = _find_one_by_uuid__unsafe K m u :=
  ⟨rfl, rfl, rfl, rfl, rfl⟩

/-- Claim C5: starting from the empty codex, for every sequence of
insertions of freshly minted Things (pairwise distinct identifiers, the
identifier-adapter contract) and removals, the final `size` equals the
number of insertions minus the number of removals that returned
`SUCCESS`. -/
theorem c5_size_net (ops : List Op) (h : (insUuids ops).Nodup) :
    size__unsafe (run [] ops) = countInserts ops - succRemoves [] ops := by
  have haux := run_size_aux ops [] (by simp [keys]) h (by simp [keys])
  have hz : size__unsafe ([] : Mapping) = 0 := rfl
  omega

/-- Claim C5 witness: two insertions and two removals of "u" (the second
returns `FAILURE`) leave size 2 − 1 = 1. -/
theorem c5_witness :
    size__unsafe (run [] [Op.ins tA, Op.ins tP, Op.rem "u", Op.rem "u"]) =
      countInserts [Op.ins tA, Op.ins tP, Op.rem "u", Op.rem "u"] -
        succRemoves [] [Op.ins tA, Op.ins tP, Op.rem "u", Op.rem "u"] :=
  c5_size_net [Op.ins tA, Op.ins tP, Op.rem "u", Op.rem "u"] (by decide)

/-- Claim C6: for an identifier not present, resolution is absent and
removal returns `FAILURE` leaving the mapping untouched; and after a
removal that returned `SUCCESS`, every subsequent removal of the same
identifier returns `FAILURE` — removal is idempotent after its first
success. -/
theorem c6_absent_and_idempotent (m : Mapping) (u : String) (K : Kind) :
    (mapFind m u = none →
        get__unsafe K m u = none ∧ remove__unsafe m u = (Status.FAILURE, m)) ∧
      (∀ m', remove__unsafe m u = (Status.SUCCESS, m') →
        remove__unsafe m' u = (Status.FAILURE, m')) := by
  constructor
  · intro h
    exact ⟨get__unsafe_of_none K m u h, remove__unsafe_of_none m u h⟩
  · intro m' h
    cases hf : mapFind m u with
    | none =>
      rw [remove__unsafe_of_none m u hf] at h
      have hfs : Status.FAILURE = Status.SUCCESS := congrArg Prod.fst h
      exact Status.noConfusion hfs
    | some t =>
      rw [remove__unsafe_of_some m u t hf] at h
      rw [Prod.mk.injEq] at h
      obtain ⟨-, h2⟩ := h
      subst h2
      exact remove__unsafe_of_none _ u (mapFind_mapErase_self m u)

/-- Claim C6 witness: on the empty codex "u" resolves to absent and removal
fails; after the successful removal of "u" from `[("u", tA)]`, removing "u"
again fails. -/
theorem c6_witness :
    get__unsafe Kind.thing [] "u" = none ∧
      remove__unsafe [] "u" = (Status.FAILURE, []) ∧
      remove__unsafe (mapErase [("u", tA)] "u") "u" =
        (Status.FAILURE, mapErase [("u", tA)] "u") := by
  have h1 := (c6_absent_and_idempotent ([] : Mapping) "u" Kind.thing).1 (by decide)
  have h2 := (c6_absent_and_idempotent [("u", tA)] "u" Kind.thing).2
      (mapErase [("u", tA)] "u") (by decide)
  exact ⟨h1.1, h1.2, h2⟩

/-- Claim C7, refuted at a concrete input: when the platform facility
fails (`UuidCreate` returns a non-zero status, `badEnv`), `_new_uuid`
returns the empty string and `Thing` construction still produces a Thing —
with an empty identifier.  No `identifier-minting` error reaches the
caller: construction is total and has no error channel. -/
theorem c7_counterexample :
    _new_uuid badEnv = "" ∧ (Thing.construct badEnv Kind.thing "r")._uuid = "" := by
  decide

/-- Claim C7 as amended: when the platform facility succeeds, minting
returns its canonical rendered string and the constructed Thing carries
it; when the facility fails on either path (`UuidCreate` or
`UuidToStringA` reporting a non-zero status), minting logs and returns
the empty string, and Thing construction produces a Thing whose
identifier is empty rather than surfacing an `identifier-minting`
error. -/
theorem c7_minting_amended (env : RpcEnv) :
    (env.createStatus = 0 → env.toStringStatus = 0 →
        _new_uuid env = env.rendered ∧
          (Thing.construct env Kind.thing "r")._uuid = env.rendered) ∧
      (env.createStatus ≠ 0 ∨ env.toStringStatus ≠ 0 →
        _new_uuid env = "" ∧ (Thing.construct env Kind.thing "r")._uuid = "") := by
  constructor
  · intro h1 h2
    constructor <;> simp [_new_uuid, Thing.construct, h1, h2]
  · rintro (h1 | h1)
    · constructor <;> simp [_new_uuid, Thing.construct, h1]
    · rcases eq_or_ne env.createStatus 0 with h2 | h2
      · constructor <;> simp [_new_uuid, Thing.construct, h1, h2]
      · constructor <;> simp [_new_uuid, Thing.construct, h2]

/-- Claim C7 witness: the amended statement applied to a successful RPC
outcome. -/
theorem c7_witness :
    _new_uuid goodEnv = goodEnv.rendered ∧
      (Thing.construct goodEnv Kind.thing "r")._uuid = goodEnv.rendered :=
  (c7_minting_amended goodEnv).1 (by decide) (by decide)

/-- Claim C8: listing an empty codex produces exactly the rule line, the
`| Codex:` header and the closing rule with no entry rows (for either
value of the print option); the continuation indent of an entry is the
literal `|       ` followed by one space per character of its identifier;
and the representation copy inserts exactly that indent after each newline
of a multi-line representation. -/
theorem c8_listing_frame_and_indent :
    (∀ b : Bool,
        ( list_entries__unsafe b []).output =
          "+---------------------------------------------\n| Codex:\n+---------------------------------------------\n") ∧
      (∀ u : String, indentFor u = "|       ".data ++ List.replicate u.length ' ') ∧
      (∀ (u : String) (s₁ s₂ : List Char),
        reprOffset (indentFor u) (s₁ ++ '\n' :: s₂) =
          reprOffset (indentFor u) s₁ ++
            '\n' :: (indentFor u ++ reprOffset (indentFor u) s₂)) := by
  refine ⟨fun b => rfl, fun u => appendSpaces_eq u.length "|       ".data, ?_⟩
  intro u s₁ s₂
  rw [show ('\n' :: s₂ : List Char) = ['\n'] ++ s₂ from rfl]
  rw [reprOffset_append, reprOffset_append]
  simp [reprOffset]

/-- Claim C9: the handle-taking removal dereferences the handle with no
null check — the embedding carries the resulting non-null precondition as
the proof obligation `p.isSome` — and for every non-null handle it returns
the same result and final state as removal by that handle's identifier. -/
theorem c9_remove_ptr_delegates (p : Option Thing) (h : p.isSome)
    (m : Mapping) (t : Thing) (ht : p = some t) :
    remove_ptr p h m = remove m t.get_uuid ∧
      ( remove_ptr p h m).2 = ( remove__unsafe m t.get_uuid).2 := by
  subst ht
  exact ⟨rfl, rfl⟩

/-- Claim C9 witness: the delegation applied to the non-null handle
`some tA` on the empty codex. -/
theorem c9_witness :
    remove_ptr (some tA) rfl [] = remove [] tA.get_uuid ∧
      ( remove_ptr (some tA) rfl []).2 = ( remove__unsafe [] tA.get_uuid).2 :=
  c9_remove_ptr_delegates (some tA) rfl [] tA rfl

/-- Claim C10: listing, with either value of the print option and in both
flavours, leaves the codex state entirely unchanged — the entries, every
stored Thing, and the size after the call are exactly those before it. -/
theorem c10_list_preserves_state (b : Bool) (m : Mapping) :
    ( list_entries b m).state = m ∧ ( list_entries__unsafe b m).state = m ∧
      size__unsafe ( list_entries b m).state = size__unsafe m ∧
      (∀ u, mapFind ( list_entries b m).state u = mapFind m u) :=
  ⟨rfl, rfl, rfl, fun _ => rfl⟩
